import Mathlib

set_option maxRecDepth 100000

/-!
Verification of the mesh-viewer core (file meshviewer_plotly_cef_tk.py):
the Model/Mesh classes, their STL/OBJ parsers and the derived geometry
(bounding boxes and wireframe edge sets).

The embedding is shallow: Python lists become Lean lists, Python floats
become rationals (all inputs of interest are exact decimals), Python
exceptions become an explicit error type threaded through Except, and the
one in-place mutation performed by Model.get_bounding_box is made explicit
by returning the updated mesh collection alongside the result.
-/

namespace MeshViewer

/-- Python exceptions that the modelled code can raise.
The source has no typed error taxonomy; it raises plain Python exceptions:
malformedHeader models the ValueError raised for a bad ASCII STL first line,
invalidNumber models the ValueError raised by float() and int() on a
non-numeric token, indexError models IndexError (bad list index, including
an unassigned subscript such as line_data of an empty line), emptySeq models
the ValueError raised by min()/max() on an empty sequence, and
unboundLocalError models the UnboundLocalError raised in Model.load_file
when no branch of the extension dispatch assigned the mesh variable. -/
inductive PyErr where
  | malformedHeader
  | invalidNumber
  | indexError
  | emptySeq
  | unboundLocalError
  deriving DecidableEq, Repr

/-- Convert an optional value to Except, raising the given error on none. -/
def liftO (e : PyErr) : Option α → Except PyErr α
  | none => .error e
  | some a => .ok a

/-- Split a character list at every separator character (Python str.split
before its empty-group filtering): groups between separators are kept,
including empty ones. -/
def splitP (p : Char → Bool) : List Char → List (List Char)
  | [] => [[]]
  | c :: cs =>
    if p c then [] :: splitP p cs
    else
      match splitP p cs with
      | [] => [[c]]
      | g :: gs => (c :: g) :: gs

/-- Python str.split() with no argument: split on whitespace runs and drop
empty groups. -/
def pySplit (s : String) : List String :=
  ((splitP Char.isWhitespace s.toList).filter (fun g => !g.isEmpty)).map
    (fun g => String.mk g)

/-- Python str.strip(): remove leading and trailing whitespace. -/
def pyStrip (s : String) : String :=
  String.mk (((s.toList.dropWhile Char.isWhitespace).reverse.dropWhile
    Char.isWhitespace).reverse)

/-- Python str.lower (sufficient for ASCII file names). -/
def pyLower (s : String) : String :=
  String.mk (s.toList.map Char.toLower)

/-- Python str.endswith for a single suffix. -/
def pyEndsWith (s suffix : String) : Bool :=
  suffix.toList.isSuffixOf s.toList

/-- Numeric value of a digit character. -/
def digVal (c : Char) : ℕ := c.toNat - 48

/-- Value of a digit run, most significant first. -/
def decVal (cs : List Char) : ℕ :=
  cs.foldl (fun acc c => 10 * acc + digVal c) 0

/-- Python float() modelled on plain decimal literals: optional sign, then
digits with at most one decimal point (at least one digit overall); returns
none exactly when CPython float() would raise ValueError on such tokens.
Exponent, inf and nan forms never occur in the modelled inputs. -/
def pyFloat (s : String) : Option ℚ :=
  let cs := s.toList
  let sgnBody : ℚ × List Char :=
    match cs with
    | '-' :: rest => (-1, rest)
    | '+' :: rest => (1, rest)
    | _ => (1, cs)
  match splitP (fun c => c = '.') sgnBody.2 with
  | [w] =>
    if !w.isEmpty && w.all Char.isDigit then some (sgnBody.1 * decVal w)
    else none
  | [w, f] =>
    if (!w.isEmpty || !f.isEmpty) && w.all Char.isDigit && f.all Char.isDigit
    then some (sgnBody.1 * ((decVal w : ℚ) + (decVal f : ℚ) / (10 : ℚ) ^ f.length))
    else none
  | _ => none

/-- Python int() on a token: optional sign then a nonempty digit run. -/
def pyInt (s : String) : Option ℤ :=
  let cs := s.toList
  match cs with
  | '-' :: rest =>
    if !rest.isEmpty && rest.all Char.isDigit then some (-(decVal rest : ℤ))
    else none
  | '+' :: rest =>
    if !rest.isEmpty && rest.all Char.isDigit then some (decVal rest : ℤ)
    else none
  | _ =>
    if !cs.isEmpty && cs.all Char.isDigit then some (decVal cs : ℤ)
    else none

/-- Python list subscription xs[i]: a negative index counts once from the
end; out of range yields none (IndexError at the call sites). -/
def pyGet (xs : List α) (i : ℤ) : Option α :=
  let j : ℤ := if i < 0 then i + xs.length else i
  if 0 ≤ j ∧ j < (xs.length : ℤ) then xs.get? j.toNat else none

/-- Python min() over a list (ValueError on an empty sequence). -/
def pyMin : List ℚ → Except PyErr ℚ
  | [] => .error .emptySeq
  | x :: xs => .ok (xs.foldl min x)

/-- Python max() over a list (ValueError on an empty sequence). -/
def pyMax : List ℚ → Except PyErr ℚ
  | [] => .error .emptySeq
  | x :: xs => .ok (xs.foldl max x)

/-- Left-to-right effectful map, the evaluation order of a Python list
comprehension: the first exception aborts the whole comprehension. -/
def eMap (f : α → Except PyErr β) : List α → Except PyErr (List β)
  | [] => .ok []
  | a :: as =>
    match f a with
    | .error e => .error e
    | .ok b =>
      match eMap f as with
      | .error e => .error e
      | .ok bs => .ok (b :: bs)

/-- Left-to-right effectful fold, the evaluation order of a Python for
loop over a list: the first exception aborts the loop. -/
def eFold (f : σ → α → Except PyErr σ) : σ → List α → Except PyErr σ
  | s, [] => .ok s
  | s, a :: as =>
    match f s a with
    | .error e => .error e
    | .ok s2 => eFold f s2 as

/-- Left-to-right optional map over a list. -/
def oMap (f : α → Option β) : List α → Option (List β)
  | [] => some []
  | a :: as =>
    match f a with
    | none => none
    | some b =>
      match oMap f as with
      | none => none
      | some bs => some (b :: bs)

instance {ε α : Type} [DecidableEq ε] [DecidableEq α] : DecidableEq (Except ε α) :=
  fun x y =>
    match x, y with
    | .error a, .error b =>
      if h : a = b then isTrue (by rw [h])
      else isFalse (by intro hc; cases hc; exact h rfl)
    | .error _, .ok _ => isFalse (by intro hc; cases hc)
    | .ok _, .error _ => isFalse (by intro hc; cases hc)
    | .ok a, .ok b =>
      if h : a = b then isTrue (by rw [h])
      else isFalse (by intro hc; cases hc; exact h rfl)

/-- A vertex as stored by the source: a Python list of coordinates. -/
abbrev Vertex := List ℚ

/-- The Mesh class: raw vertices, faces (1-based Python int indices) and
the bounding box cached by Mesh.init. -/
structure Mesh where
  vertices : List Vertex
  faces : List (List ℤ)
  bounding_box : List (List ℚ)
  deriving DecidableEq, Repr

/-- Mesh.get_vertices: for each face, the list of the coordinate triples of
its vertices, looked up with the 1-based index convention
(self.vertices with index ivt - 1). -/
def Mesh.get_vertices (vertices : List Vertex) (faces : List (List ℤ)) :
    Except PyErr (List (List Vertex)) :=
  eMap (fun face => eMap (fun ivt => liftO .indexError (pyGet vertices (ivt - 1))) face)
    faces

/-- Mesh.get_bounding_box: flatten the face-expanded vertex list, then for
each axis i below the length of vertices[0] take the pair
[min of coordinate i, max of coordinate i] over the flattened list. -/
def Mesh.get_bounding_box (vertices : List Vertex) (faces : List (List ℤ)) :
    Except PyErr (List (List ℚ)) :=
  match Mesh.get_vertices vertices faces with
  | .error e => .error e
  | .ok fv =>
    let v := fv.flatten
    match liftO .indexError (pyGet vertices 0) with
    | .error e => .error e
    | .ok v0 =>
      eMap (fun (i : ℕ) =>
        match eMap (fun p => liftO .indexError (pyGet p (i : ℤ))) v with
        | .error e => .error e
        | .ok x_i =>
          match pyMin x_i with
          | .error e => .error e
          | .ok mn =>
            match pyMax x_i with
            | .error e => .error e
            | .ok mx => .ok [mn, mx]) (List.range v0.length)

/-- Mesh.init: store vertices and faces and cache the bounding box; any
exception of the bounding-box computation escapes the constructor. -/
def Mesh.make (vertices : List Vertex) (faces : List (List ℤ)) :
    Except PyErr Mesh :=
  match Mesh.get_bounding_box vertices faces with
  | .error e => .error e
  | .ok bb => .ok { vertices := vertices, faces := faces, bounding_box := bb }

/-- The edge normalization of Mesh.get_line_segments: keep (iv, jv) if
jv is greater than iv, otherwise swap. -/
def normEdge (iv jv : ℤ) : ℤ × ℤ :=
  if jv > iv then (iv, jv) else (jv, iv)

/-- The line_segments set built by Mesh.get_line_segments: for every face
and every position i, insert the normalized pair of face[i] and
face[(i+1) mod len(face)] into a set. -/
def Mesh.line_segments (faces : List (List ℤ)) : Finset (ℤ × ℤ) :=
  faces.foldl (fun s face =>
    (List.range face.length).foldl (fun s2 i =>
      insert (normEdge (face.getD i 0) (face.getD ((i + 1) % face.length) 0)) s2) s)
    ∅

/-- Mesh.get_line_segments: resolve every edge of the line_segments set to
the coordinate pair of its endpoints (1-based lookups); the Python result
is a list in unspecified set-iteration order, modelled as a multiset.
A failing lookup raises IndexError. -/
def Mesh.get_line_segments (m : Mesh) : Except PyErr (Multiset (Vertex × Vertex)) :=
  let es := Mesh.line_segments m.faces
  if ∀ e ∈ es, (pyGet m.vertices (e.1 - 1)).isSome = true ∧
      (pyGet m.vertices (e.2 - 1)).isSome = true then
    .ok (es.val.map (fun e =>
      ((pyGet m.vertices (e.1 - 1)).getD [], (pyGet m.vertices (e.2 - 1)).getD [])))
  else .error .indexError

/-- The unit-cube vertex fixture of Model.init. -/
def cubeVertices : List Vertex :=
  [[0,0,0], [1,0,0], [1,1,0], [0,1,0], [0,0,1], [1,0,1], [1,1,1], [0,1,1]]

/-- The unit-cube face fixture of Model.init (12 triangles). -/
def cubeFaces : List (List ℤ) :=
  [[1,2,3], [1,3,4], [1,2,6], [1,6,5], [2,3,7], [2,7,6],
   [3,4,8], [3,8,7], [4,1,5], [4,5,8], [5,6,7], [5,7,8]]

/-- The default Mesh built by Model.init from the cube fixture. -/
def cubeMesh : Mesh :=
  { vertices := cubeVertices, faces := cubeFaces,
    bounding_box := [[0,1], [0,1], [0,1]] }

/-- The cube fixture translated by (5,0,0). -/
def cube5Vertices : List Vertex :=
  [[5,0,0], [6,0,0], [6,1,0], [5,1,0], [5,0,1], [6,0,1], [6,1,1], [5,1,1]]

/-- The translated cube as a Mesh with its cached box. -/
def cube5Mesh : Mesh :=
  { vertices := cube5Vertices, faces := cubeFaces,
    bounding_box := [[5,6], [0,1], [0,1]] }

/-- The state of the ASCII STL line loop of Model.load_stl: the global
vertex list, the face list, and the accumulator v of the current loop. -/
structure StlState where
  vertices : List Vertex
  faces : List (List ℤ)
  v : List Vertex
  deriving DecidableEq, Repr

/-- The vertex branch of the STL line loop: line_data[1], line_data[2] and
line_data[3] are each subscripted (IndexError when missing) and passed to
float() (ValueError on a non-numeric token), in the evaluation order of the
Python list display. -/
def stlVertexE (rest : List String) : Except PyErr Vertex :=
  match liftO .indexError rest[0]? with
  | .error e => .error e
  | .ok a =>
    match liftO .invalidNumber (pyFloat a) with
    | .error e => .error e
    | .ok x =>
      match liftO .indexError rest[1]? with
      | .error e => .error e
      | .ok b =>
        match liftO .invalidNumber (pyFloat b) with
        | .error e => .error e
        | .ok y =>
          match liftO .indexError rest[2]? with
          | .error e => .error e
          | .ok c =>
            match liftO .invalidNumber (pyFloat c) with
            | .error e => .error e
            | .ok z => .ok [x, y, z]

/-- One iteration of the Model.load_stl line loop (after the first-line
header check): subscript line_data[0] (IndexError on a blank line), then
dispatch on the token facet / vertex / endloop; every other token is
ignored.  On endloop with exactly 3 accumulated vertices, extend the global
vertex list and append one face of 3 contiguous 1-based indices. -/
def stlLine (st : StlState) (line : String) : Except PyErr StlState :=
  match pySplit line with
  | [] => .error .indexError
  | t :: rest =>
    if t = "facet" then .ok { st with v := [] }
    else if t = "vertex" then
      match stlVertexE rest with
      | .error e => .error e
      | .ok tri => .ok { st with v := st.v ++ [tri] }
    else if t = "endloop" then
      if st.v.length = 3 then
        .ok { vertices := st.vertices ++ st.v,
              faces := st.faces ++
                [[3 * (st.faces.length : ℤ) + 1, 3 * (st.faces.length : ℤ) + 2,
                  3 * (st.faces.length : ℤ) + 3]],
              v := st.v }
      else .ok st
    else .ok st

/-- Model.load_stl on the split lines of the file content: the first line,
stripped, must be exactly the string solid (otherwise the ValueError
modelled by malformedHeader); then the token-driven line loop runs over all
lines, the first one included. -/
def Model.load_stl_lines (lines : List String) :
    Except PyErr (List Vertex × List (List ℤ)) :=
  match lines with
  | [] => .ok ([], [])
  | l0 :: rest =>
    if pyStrip l0 = "solid" then
      match eFold stlLine { vertices := [], faces := [], v := [] } (l0 :: rest) with
      | .error e => .error e
      | .ok st => .ok (st.vertices, st.faces)
    else .error .malformedHeader

/-- Model.load_stl followed by the Mesh constructor call. -/
def Model.load_stl (lines : List String) : Except PyErr Mesh :=
  match Model.load_stl_lines lines with
  | .error e => .error e
  | .ok vf => Mesh.make vf.1 vf.2

/-- Replace every occurrence of the two-character run // by / (Python
str.replace with non-overlapping left-to-right scanning). -/
def replaceDS : List Char → List Char
  | '/' :: '/' :: rest => '/' :: replaceDS rest
  | c :: rest => c :: replaceDS rest
  | [] => []

/-- One OBJ face token: tok.replace two slashes by one, split on /, take
element 0 and pass it to int() (ValueError on a non-numeric token). -/
def objFaceIndex (tok : String) : Except PyErr ℤ :=
  let parts := splitP (fun c => c = '/') (replaceDS tok.toList)
  match liftO .indexError parts[0]? with
  | .error e => .error e
  | .ok a => liftO .invalidNumber (pyInt (String.mk a))

/-- One iteration of the Model.load_obj line loop: blank lines are skipped,
a v line parses 3 floats (line_data[1..3]), an f line maps objFaceIndex
over the remaining tokens, every other leading token is ignored. -/
def objLine (st : List Vertex × List (List ℤ)) (line : String) :
    Except PyErr (List Vertex × List (List ℤ)) :=
  match pySplit line with
  | [] => .ok st
  | t :: rest =>
    if t = "v" then
      match stlVertexE rest with
      | .error e => .error e
      | .ok tri => .ok (st.1 ++ [tri], st.2)
    else if t = "f" then
      match eMap objFaceIndex rest with
      | .error e => .error e
      | .ok face => .ok (st.1, st.2 ++ [face])
    else .ok st

/-- Model.load_obj on the split lines of the file content. -/
def Model.load_obj_lines (lines : List String) :
    Except PyErr (List Vertex × List (List ℤ)) :=
  eFold objLine ([], []) lines

/-- Model.load_obj followed by the Mesh constructor call. -/
def Model.load_obj (lines : List String) : Except PyErr Mesh :=
  match Model.load_obj_lines lines with
  | .error e => .error e
  | .ok vf => Mesh.make vf.1 vf.2

/-- Model.load_file: dispatch on the lower-cased file-name suffix; with no
matching suffix the local variable mesh is never assigned, so the final
self.data.append(mesh) raises UnboundLocalError.  File reading is
abstracted by passing the file content as split lines. -/
def Model.load_file (file_name : String) (contents : List String)
    (data : List Mesh) : Except PyErr (List Mesh) :=
  if pyEndsWith (pyLower file_name) ".stl" || pyEndsWith (pyLower file_name) ".stla" then
    match Model.load_stl contents with
    | .error e => .error e
    | .ok mesh => .ok (data ++ [mesh])
  else if pyEndsWith (pyLower file_name) ".obj" then
    match Model.load_obj contents with
    | .error e => .error e
    | .ok mesh => .ok (data ++ [mesh])
  else .error .unboundLocalError

/-- The inner axis loop of Model.get_bounding_box, widening the running
box bbox in place by the cached box of one further mesh: for every axis i
below len(bbox), bbox[i][0] is lowered to min(bbox[i][0], min(x_i)) and
bbox[i][1] raised to max(bbox[i][1], max(x_i)) where x_i is that mesh box
entry i; the two in-place element assignments are combined into one
List.set of the updated two entries. -/
def Model.widen_axes (bbox mbox : List (List ℚ)) :
    Except PyErr (List (List ℚ)) :=
  eFold (fun b (i : ℕ) =>
    match liftO .indexError (pyGet mbox (i : ℤ)) with
    | .error e => .error e
    | .ok x_i =>
      match liftO .indexError (pyGet b (i : ℤ)) with
      | .error e => .error e
      | .ok bi =>
        match liftO .indexError (pyGet bi 0) with
        | .error e => .error e
        | .ok b0 =>
          match pyMin x_i with
          | .error e => .error e
          | .ok mn =>
            match liftO .indexError (pyGet bi 1) with
            | .error e => .error e
            | .ok b1 =>
              match pyMax x_i with
              | .error e => .error e
              | .ok mx =>
                .ok (b.set i ((bi.set 0 (min b0 mn)).set 1 (max b1 mx))))
    bbox (List.range bbox.length)

/-- Model.get_bounding_box: bbox starts as the cached box object of
data[0] (an alias, so the in-place widening also mutates that mesh), is
widened by every later mesh, and is returned; the mutation is made
explicit by also returning the updated mesh collection. -/
def Model.get_bounding_box (data : List Mesh) :
    Except PyErr (List (List ℚ) × List Mesh) :=
  match data with
  | [] => .error .indexError
  | m0 :: rest =>
    match eFold (fun b mesh => Model.widen_axes b mesh.bounding_box)
        m0.bounding_box rest with
    | .error e => .error e
    | .ok final => .ok (final, { m0 with bounding_box := final } :: rest)

/-! Spec-side definitions, written from the wording of the specification to
be compared with the code-side definitions above. -/

/-- The normalization the spec asks for: the smaller index first. -/
def normPair (iv jv : ℤ) : ℤ × ℤ := (min iv jv, max iv jv)

/-- The edge set as the spec words it: for each face, each consecutive
index pair in traversal order including the wrap from last to first,
normalized so the smaller index comes first, with duplicates eliminated by
set semantics. -/
def specEdgeSet (faces : List (List ℤ)) : Finset (ℤ × ℤ) :=
  ((faces.map (fun face => (List.range face.length).map (fun i =>
      normPair (face.getD i 0) (face.getD ((i + 1) % face.length) 0)))).flatten).toFinset

/-- One widening step as the spec words it: on each axis, widen the running
min down and the running max up by the other box. -/
def specWiden (b mb : List (List ℚ)) : List (List ℚ) :=
  List.zipWith (fun bi mi => [min (bi.getD 0 0) (mi.getD 0 0),
    max (bi.getD 1 0) (mi.getD 1 0)]) b mb

/-- The aggregate box as the spec words it: start from the box of mesh 0
and widen by the box of each subsequent mesh. -/
def specAggregate : List Mesh → Option (List (List ℚ))
  | [] => none
  | m :: rest =>
    some (rest.foldl (fun b mesh => specWiden b mesh.bounding_box) m.bounding_box)

/-- A well-formed 3-axis box: three [min, max] entries with min at most
max, the shape every cached bounding box of a 3-dimensional mesh has. -/
def box3 (b : List (List ℚ)) : Prop :=
  ∃ x1 y1 x2 y2 x3 y3, x1 ≤ y1 ∧ x2 ≤ y2 ∧ x3 ≤ y3 ∧
    b = [[x1, y1], [x2, y2], [x3, y3]]

/-- A well-formed STL vertex line and its parsed coordinate triple:
leading token vertex, then the three floats the source reads. -/
def stlVertexParse (line : String) : Option Vertex :=
  match pySplit line with
  | [] => none
  | t :: rest => if t = "vertex" then (stlVertexE rest).toOption else none

/-- Total version of the 1-based vertex lookup, for stating what the
face-expanded vertex list contains when every index is in range. -/
def refAt (vertices : List Vertex) (ivt : ℤ) : Vertex :=
  (pyGet vertices (ivt - 1)).getD []

/-- The face-expanded vertex list: for each face, in order, the coordinate
triples of the vertices it references, flattened. -/
def refVertices (vertices : List Vertex) (faces : List (List ℤ)) : List Vertex :=
  (faces.map (fun face => face.map (refAt vertices))).flatten

/-- Coordinate i of every entry of the face-expanded vertex list. -/
def axisCoords (vertices : List Vertex) (faces : List (List ℤ)) (i : ℕ) : List ℚ :=
  (refVertices vertices faces).map (fun p => p.getD i 0)

/-- Total min of a list (0 on the empty list, never used there). -/
def listMin : List ℚ → ℚ
  | [] => 0
  | x :: xs => xs.foldl min x

/-- Total max of a list (0 on the empty list, never used there). -/
def listMax : List ℚ → ℚ
  | [] => 0
  | x :: xs => xs.foldl max x

/-- The in-range-indices hypothesis: every face index is a valid 1-based
index of the vertex buffer. -/
def idxOK (vs : List Vertex) (fs : List (List ℤ)) : Prop :=
  ∀ face ∈ fs, ∀ ivt ∈ face, 1 ≤ ivt ∧ ivt ≤ (vs.length : ℤ)

/-- The invariant of Model.load_stl: one face per flushed triple, with
contiguous 1-based indices. -/
def stlInv (st : StlState) : Prop :=
  st.vertices.length = 3 * st.faces.length ∧
  ∀ k, k < st.faces.length → st.faces.getD k [] =
    [3 * (k : ℤ) + 1, 3 * (k : ℤ) + 2, 3 * (k : ℤ) + 3]

/-! Generic helper lemmas about the effectful list combinators. -/

theorem eMap_ok_of_forall {α β : Type} {f : α → Except PyErr β} {g : α → β} :
    ∀ l : List α, (∀ a ∈ l, f a = .ok (g a)) → eMap f l = .ok (l.map g) := by
  intro l
  induction l with
  | nil => intro _; rfl
  | cons a as ih =>
    intro h
    have ha : f a = .ok (g a) := h a (List.mem_cons_self a as)
    have has : eMap f as = .ok (as.map g) :=
      ih (fun x hx => h x (List.mem_cons_of_mem a hx))
    simp [eMap, ha, has]

theorem eMap_length {α β : Type} {f : α → Except PyErr β} :
    ∀ {l : List α} {bs : List β}, eMap f l = .ok bs → bs.length = l.length := by
  intro l
  induction l with
  | nil => intro bs h; simp [eMap] at h; simp [← h]
  | cons a as ih =>
    intro bs h
    simp only [eMap] at h
    rcases ha : f a with e | b <;> rw [ha] at h
    · exact absurd h (by simp)
    · rcases has : eMap f as with e | bs2 <;> rw [has] at h
      · exact absurd h (by simp)
      · cases h
        simp [ih has]

theorem eFold_append {σ α : Type} (f : σ → α → Except PyErr σ) (s : σ)
    (l1 l2 : List α) :
    eFold f s (l1 ++ l2) =
      match eFold f s l1 with
      | .error e => .error e
      | .ok s2 => eFold f s2 l2 := by
  induction l1 generalizing s with
  | nil => simp [eFold]
  | cons a as ih =>
    simp only [List.cons_append, eFold]
    rcases f s a with e | s2 <;> simp [ih]

theorem eFold_pres {σ α : Type} {f : σ → α → Except PyErr σ} (P : σ → Prop)
    (hstep : ∀ s a s2, P s → f s a = .ok s2 → P s2) :
    ∀ {l : List α} {s s2 : σ}, P s → eFold f s l = .ok s2 → P s2 := by
  intro l
  induction l with
  | nil => intro s s2 hs h; simp [eFold] at h; rwa [← h]
  | cons a as ih =>
    intro s s2 hs h
    simp only [eFold] at h
    rcases ha : f s a with e | s3 <;> rw [ha] at h
    · exact absurd h (by simp)
    · exact ih (hstep s a s3 hs ha) h

theorem eFold_ne_error {σ α : Type} {f : σ → α → Except PyErr σ} {bad : PyErr}
    (hstep : ∀ s a, f s a ≠ .error bad) :
    ∀ {l : List α} {s : σ}, eFold f s l ≠ .error bad := by
  intro l
  induction l with
  | nil => intro s h; simp [eFold] at h
  | cons a as ih =>
    intro s h
    simp only [eFold] at h
    rcases ha : f s a with e | s2 <;> rw [ha] at h
    · cases h; exact hstep s a ha
    · exact ih h

theorem mem_foldl_insert {β γ : Type} [DecidableEq γ] (g : β → γ) :
    ∀ (l : List β) (s : Finset γ) (a : γ),
      (a ∈ l.foldl (fun s2 i => insert (g i) s2) s ↔ a ∈ s ∨ ∃ i ∈ l, a = g i) := by
  intro l
  induction l with
  | nil => intro s a; simp
  | cons x xs ih =>
    intro s a
    simp only [List.foldl_cons, ih, Finset.mem_insert, List.mem_cons]
    constructor
    · rintro (⟨h | h⟩ | ⟨i, hi, h⟩)
      · exact Or.inr ⟨x, Or.inl rfl, h⟩
      · exact Or.inl h
      · exact Or.inr ⟨i, Or.inr hi, h⟩
    · rintro (h | ⟨i, hi | hi, h⟩)
      · exact Or.inl (Or.inr h)
      · exact Or.inl (Or.inl (hi ▸ h))
      · exact Or.inr ⟨i, hi, h⟩

theorem foldl_min_le (l : List ℚ) :
    ∀ (a : ℚ), ∀ q ∈ a :: l, l.foldl min a ≤ q := by
  induction l with
  | nil =>
    intro a q hq
    simp only [List.mem_cons, List.not_mem_nil, or_false] at hq
    simp [hq]
  | cons x xs ih =>
    intro a q hq
    simp only [List.mem_cons] at hq
    simp only [List.foldl_cons]
    have hmem : xs.foldl min (min a x) ≤ min a x :=
      ih (min a x) (min a x) (List.mem_cons_self _ _)
    rcases hq with hq | hq | hq
    · rw [hq]; exact le_trans hmem (min_le_left a x)
    · rw [hq]; exact le_trans hmem (min_le_right a x)
    · exact ih (min a x) q (List.mem_cons_of_mem _ hq)

theorem foldl_min_mem (l : List ℚ) :
    ∀ (a : ℚ), l.foldl min a ∈ a :: l := by
  induction l with
  | nil => intro a; simp
  | cons x xs ih =>
    intro a
    have h := ih (min a x)
    simp only [List.foldl_cons]
    simp only [List.mem_cons] at h ⊢
    rcases h with h2 | h2
    · rcases min_choice a x with hm | hm
      · left; rw [h2, hm]
      · right; left; rw [h2, hm]
    · right; right; exact h2

theorem foldl_max_le (l : List ℚ) :
    ∀ (a : ℚ), ∀ q ∈ a :: l, q ≤ l.foldl max a := by
  induction l with
  | nil =>
    intro a q hq
    simp only [List.mem_cons, List.not_mem_nil, or_false] at hq
    simp [hq]
  | cons x xs ih =>
    intro a q hq
    simp only [List.mem_cons] at hq
    simp only [List.foldl_cons]
    have hmem : max a x ≤ xs.foldl max (max a x) :=
      ih (max a x) (max a x) (List.mem_cons_self _ _)
    rcases hq with hq | hq | hq
    · rw [hq]; exact le_trans (le_max_left a x) hmem
    · rw [hq]; exact le_trans (le_max_right a x) hmem
    · exact ih (max a x) q (List.mem_cons_of_mem _ hq)

theorem foldl_max_mem (l : List ℚ) :
    ∀ (a : ℚ), l.foldl max a ∈ a :: l := by
  induction l with
  | nil => intro a; simp
  | cons x xs ih =>
    intro a
    have h := ih (max a x)
    simp only [List.foldl_cons]
    simp only [List.mem_cons] at h ⊢
    rcases h with h2 | h2
    · rcases max_choice a x with hm | hm
      · left; rw [h2, hm]
      · right; left; rw [h2, hm]
    · right; right; exact h2

theorem pyGet_of_nonneg_lt {α : Type} (xs : List α) (i : ℤ) (h0 : 0 ≤ i)
    (h1 : i < (xs.length : ℤ)) : pyGet xs i = xs.get? i.toNat := by
  have hneg : ¬ i < 0 := by omega
  simp [pyGet, hneg, h0, h1]

/-! Claim C1: the wireframe edge set. -/

theorem normEdge_eq_normPair (iv jv : ℤ) : normEdge iv jv = normPair iv jv := by
  unfold normEdge normPair
  rcases le_or_lt jv iv with h | h
  · rw [if_neg (not_lt.mpr h), min_eq_right h, max_eq_left h]
  · rw [if_pos h, min_eq_left h.le, max_eq_right h.le]

theorem mem_line_segments_aux (faces : List (List ℤ)) :
    ∀ (s : Finset (ℤ × ℤ)) (a : ℤ × ℤ),
      (a ∈ faces.foldl (fun s face =>
          (List.range face.length).foldl (fun s2 i =>
            insert (normEdge (face.getD i 0) (face.getD ((i + 1) % face.length) 0)) s2) s)
        s ↔
      a ∈ s ∨ ∃ face ∈ faces, ∃ i, i < face.length ∧
        a = normEdge (face.getD i 0) (face.getD ((i + 1) % face.length) 0)) := by
  induction faces with
  | nil => intro s a; simp
  | cons face fs ih =>
    intro s a
    simp only [List.foldl_cons]
    rw [ih]
    rw [mem_foldl_insert
      (fun i => normEdge (face.getD i 0) (face.getD ((i + 1) % face.length) 0))
      (List.range face.length) s a]
    simp only [List.mem_range, List.mem_cons]
    constructor
    · rintro ((h | ⟨i, hi, h⟩) | ⟨f2, hf2, i, hi, h⟩)
      · exact Or.inl h
      · exact Or.inr ⟨face, Or.inl rfl, i, hi, h⟩
      · exact Or.inr ⟨f2, Or.inr hf2, i, hi, h⟩
    · rintro (h | ⟨f2, hf2 | hf2, i, hi, h⟩)
      · exact Or.inl (Or.inl h)
      · subst hf2
        exact Or.inl (Or.inr ⟨i, hi, h⟩)
      · exact Or.inr ⟨f2, hf2, i, hi, h⟩

theorem mem_line_segments (faces : List (List ℤ)) (a : ℤ × ℤ) :
    a ∈ Mesh.line_segments faces ↔
      ∃ face ∈ faces, ∃ i, i < face.length ∧
        a = normEdge (face.getD i 0) (face.getD ((i + 1) % face.length) 0) := by
  unfold Mesh.line_segments
  rw [mem_line_segments_aux faces ∅ a]
  simp

theorem mem_specEdgeSet (faces : List (List ℤ)) (a : ℤ × ℤ) :
    a ∈ specEdgeSet faces ↔
      ∃ face ∈ faces, ∃ i, i < face.length ∧
        a = normPair (face.getD i 0) (face.getD ((i + 1) % face.length) 0) := by
  unfold specEdgeSet
  simp only [List.mem_toFinset, List.mem_flatten, List.mem_map, List.mem_range]
  constructor
  · rintro ⟨l, ⟨face, hface, rfl⟩, hmem⟩
    obtain ⟨i, hi, rfl⟩ := List.mem_map.mp hmem
    exact ⟨face, hface, i, List.mem_range.mp hi, rfl⟩
  · rintro ⟨face, hface, i, hi, rfl⟩
    exact ⟨_, ⟨face, hface, rfl⟩, List.mem_map.mpr ⟨i, List.mem_range.mpr hi, rfl⟩⟩

/-- Claim C1: for every mesh, the wireframe edge query builds exactly the
set the spec describes (each consecutive index pair of each face, wrap
included, normalized smaller-first, deduplicated by set semantics); every
stored edge has its smaller index first; every returned line segment is
the coordinate pair of the two endpoints of one stored edge; and on the
default unit-cube fixture the set has exactly 18 edges, also after the
segments are resolved to coordinates. -/
theorem line_segments_spec_and_cube :
    (∀ faces : List (List ℤ), Mesh.line_segments faces = specEdgeSet faces) ∧
    (∀ faces : List (List ℤ), ∀ e ∈ Mesh.line_segments faces, e.1 ≤ e.2) ∧
    (∀ (m : Mesh) (segs : Multiset (Vertex × Vertex)),
      Mesh.get_line_segments m = .ok segs →
      ∀ s ∈ segs, ∃ e, e ∈ Mesh.line_segments m.faces ∧
        pyGet m.vertices (e.1 - 1) = some s.1 ∧
        pyGet m.vertices (e.2 - 1) = some s.2) ∧
    (Mesh.line_segments cubeFaces).card = 18 ∧
    (Mesh.get_line_segments cubeMesh).map Multiset.card = .ok 18 := by
  refine ⟨?_, ?_, ?_, by decide, by decide⟩
  · intro faces
    ext a
    rw [mem_line_segments, mem_specEdgeSet]
    simp only [normEdge_eq_normPair]
  · intro faces e he
    rw [mem_line_segments] at he
    obtain ⟨face, _, i, _, rfl⟩ := he
    rw [normEdge_eq_normPair]
    exact min_le_max
  · intro m segs h s hs
    simp only [Mesh.get_line_segments] at h
    split at h
    · rename_i hcond
      cases h
      rw [Multiset.mem_map] at hs
      obtain ⟨e, he, rfl⟩ := hs
      have hmem : e ∈ Mesh.line_segments m.faces := Finset.mem_val.mp he
      obtain ⟨h1, h2⟩ := hcond e hmem
      obtain ⟨x1, hx1⟩ := Option.isSome_iff_exists.mp h1
      obtain ⟨x2, hx2⟩ := Option.isSome_iff_exists.mp h2
      exact ⟨e, hmem, by simp [hx1], by simp [hx2]⟩
    · cases h

/-- Witness for C1 at the unit-cube fixture. -/
theorem line_segments_spec_and_cube_witness :
    Mesh.line_segments cubeFaces = specEdgeSet cubeFaces ∧
    (∀ s ∈ (Mesh.line_segments cubeFaces).val.map (fun e =>
        ((pyGet cubeMesh.vertices (e.1 - 1)).getD [],
         (pyGet cubeMesh.vertices (e.2 - 1)).getD [])),
      ∃ e, e ∈ Mesh.line_segments cubeMesh.faces ∧
        pyGet cubeMesh.vertices (e.1 - 1) = some s.1 ∧
        pyGet cubeMesh.vertices (e.2 - 1) = some s.2) := by
  constructor
  · exact line_segments_spec_and_cube.1 cubeFaces
  · exact fun s hs =>
      line_segments_spec_and_cube.2.2.1 cubeMesh _ (by decide) s hs

/-! Claim C2: the per-mesh bounding box. -/

theorem pyMin_ok {l : List ℚ} (h : l ≠ []) : pyMin l = .ok (listMin l) := by
  cases l with
  | nil => exact absurd rfl h
  | cons x xs => rfl

theorem pyMax_ok {l : List ℚ} (h : l ≠ []) : pyMax l = .ok (listMax l) := by
  cases l with
  | nil => exact absurd rfl h
  | cons x xs => rfl

theorem listMin_mem {l : List ℚ} (h : l ≠ []) : listMin l ∈ l := by
  cases l with
  | nil => exact absurd rfl h
  | cons x xs => exact foldl_min_mem xs x

theorem listMin_le {l : List ℚ} : ∀ q ∈ l, listMin l ≤ q := by
  cases l with
  | nil => intro q hq; exact absurd hq (List.not_mem_nil q)
  | cons x xs => exact foldl_min_le xs x

theorem listMax_mem {l : List ℚ} (h : l ≠ []) : listMax l ∈ l := by
  cases l with
  | nil => exact absurd rfl h
  | cons x xs => exact foldl_max_mem xs x

theorem le_listMax {l : List ℚ} : ∀ q ∈ l, q ≤ listMax l := by
  cases l with
  | nil => intro q hq; exact absurd hq (List.not_mem_nil q)
  | cons x xs => exact foldl_max_le xs x

theorem pyGet_refAt {vs : List Vertex} {ivt : ℤ} (hl : 1 ≤ ivt)
    (hr : ivt ≤ (vs.length : ℤ)) :
    pyGet vs (ivt - 1) = some (refAt vs ivt) ∧ refAt vs ivt ∈ vs := by
  have h0 : 0 ≤ ivt - 1 := by omega
  have h1 : ivt - 1 < (vs.length : ℤ) := by omega
  have hlt : (ivt - 1).toNat < vs.length := by omega
  have hg := pyGet_of_nonneg_lt vs (ivt - 1) h0 h1
  rw [List.get?_eq_get hlt] at hg
  refine ⟨?_, ?_⟩
  · rw [hg]
    unfold refAt
    rw [hg]
    rfl
  · unfold refAt
    rw [hg]
    exact List.get_mem vs _ _

theorem pyGet_nat {p : Vertex} {i : ℕ} (h : i < p.length) :
    pyGet p (i : ℤ) = some (p.getD i 0) := by
  have h0 : (0 : ℤ) ≤ (i : ℤ) := by omega
  have h1 : (i : ℤ) < (p.length : ℤ) := by omega
  rw [pyGet_of_nonneg_lt p (i : ℤ) h0 h1]
  have ht : ((i : ℤ)).toNat = i := by omega
  rw [ht, List.getD_eq_getElem?_getD, List.get?_eq_getElem?,
    List.getElem?_eq_getElem h]
  rfl

theorem get_vertices_ok {vs : List Vertex} {fs : List (List ℤ)}
    (hidx : idxOK vs fs) :
    Mesh.get_vertices vs fs = .ok (fs.map (fun face => face.map (refAt vs))) := by
  unfold Mesh.get_vertices
  apply eMap_ok_of_forall
  intro face hface
  apply eMap_ok_of_forall
  intro ivt hivt
  obtain ⟨h1, h2⟩ := hidx face hface ivt hivt
  rw [(pyGet_refAt h1 h2).1]
  rfl

theorem refVertices_sub {vs : List Vertex} {fs : List (List ℤ)}
    (hidx : idxOK vs fs) : ∀ p ∈ refVertices vs fs, p ∈ vs := by
  intro p hp
  unfold refVertices at hp
  rw [List.mem_flatten] at hp
  obtain ⟨l, hl, hpl⟩ := hp
  obtain ⟨face, hface, rfl⟩ := List.mem_map.mp hl
  obtain ⟨ivt, hivt, rfl⟩ := List.mem_map.mp hpl
  obtain ⟨h1, h2⟩ := hidx face hface ivt hivt
  exact (pyGet_refAt h1 h2).2

theorem refVertices_ne_nil {vs : List Vertex} {fs : List (List ℤ)}
    (hface : ∃ face ∈ fs, face ≠ []) : refVertices vs fs ≠ [] := by
  obtain ⟨face, hface2, hne⟩ := hface
  unfold refVertices
  intro hflat
  rw [List.flatten_eq_nil_iff] at hflat
  have := hflat (face.map (refAt vs)) (List.mem_map.mpr ⟨face, hface2, rfl⟩)
  rw [List.map_eq_nil_iff] at this
  exact hne this

theorem axisCoords_ne_nil {vs : List Vertex} {fs : List (List ℤ)} {i : ℕ}
    (hface : ∃ face ∈ fs, face ≠ []) : axisCoords vs fs i ≠ [] := by
  unfold axisCoords
  intro h
  rw [List.map_eq_nil_iff] at h
  exact refVertices_ne_nil hface h

/-- Evaluation of Mesh.get_bounding_box when the head vertex has 3
coordinates, every face-referenced vertex has 3 coordinates, every index
is in range, and at least one face is nonempty. -/
theorem get_bounding_box_eval {vs : List Vertex} {fs : List (List ℤ)}
    {v0 : Vertex}
    (h0 : pyGet vs 0 = some v0) (hv0 : v0.length = 3)
    (href : ∀ p ∈ refVertices vs fs, p.length = 3)
    (hidx : idxOK vs fs) (hface : ∃ face ∈ fs, face ≠ []) :
    Mesh.get_bounding_box vs fs =
      .ok ((List.range 3).map (fun i =>
        [listMin (axisCoords vs fs i), listMax (axisCoords vs fs i)])) := by
  have hflat : (fs.map (fun face => face.map (refAt vs))).flatten =
      refVertices vs fs := rfl
  unfold Mesh.get_bounding_box
  rw [get_vertices_ok hidx]
  dsimp only
  rw [h0, show liftO PyErr.indexError (some v0) = Except.ok v0 from rfl]
  dsimp only
  rw [hflat, hv0]
  apply eMap_ok_of_forall
  intro i hi
  rw [List.mem_range] at hi
  have hx : eMap (fun p => liftO .indexError (pyGet p (i : ℤ)))
      (refVertices vs fs) = .ok (axisCoords vs fs i) := by
    apply eMap_ok_of_forall
    intro p hp
    rw [pyGet_nat (by rw [href p hp]; exact hi)]
    rfl
  rw [hx]
  dsimp only
  rw [pyMin_ok (axisCoords_ne_nil hface)]
  dsimp only
  rw [pyMax_ok (axisCoords_ne_nil hface)]

theorem refAt_append {vs : List Vertex} {w : Vertex} {ivt : ℤ}
    (h1 : 1 ≤ ivt) (h2 : ivt ≤ (vs.length : ℤ)) :
    refAt (vs ++ [w]) ivt = refAt vs ivt := by
  have hlt : (ivt - 1).toNat < vs.length := by omega
  unfold refAt
  rw [pyGet_of_nonneg_lt (vs ++ [w]) (ivt - 1) (by omega)
    (by rw [List.length_append]; push_cast; omega)]
  rw [pyGet_of_nonneg_lt vs (ivt - 1) (by omega) (by omega)]
  rw [List.get?_append hlt]

theorem refVertices_append {vs : List Vertex} {w : Vertex}
    {fs : List (List ℤ)} (hidx : idxOK vs fs) :
    refVertices (vs ++ [w]) fs = refVertices vs fs := by
  unfold refVertices
  congr 1
  apply List.map_congr_left
  intro face hface
  apply List.map_congr_left
  intro ivt hivt
  obtain ⟨h1, h2⟩ := hidx face hface ivt hivt
  exact refAt_append h1 h2

/-- Claim C2: the per-mesh bounding box is, on each of the 3 axes, the
(min, max) pair over exactly the vertex coordinates referenced by a face
(the face-expanded vertex list); appending a vertex referenced by no face
leaves the box unchanged; and on the default unit cube the box evaluates
to [(0,1), (0,1), (0,1)]. -/
theorem bounding_box_face_expanded {vs : List Vertex} {fs : List (List ℤ)}
    (hne : vs ≠ []) (hidx : idxOK vs fs)
    (hdim : ∀ p ∈ vs, p.length = 3) (hface : ∃ face ∈ fs, face ≠ []) :
    (∃ bb, Mesh.get_bounding_box vs fs = .ok bb ∧ bb.length = 3 ∧
      (∀ i, i < 3 → ∃ mn mx, bb.getD i [] = [mn, mx] ∧
        mn ∈ axisCoords vs fs i ∧ mx ∈ axisCoords vs fs i ∧
        ∀ q ∈ axisCoords vs fs i, mn ≤ q ∧ q ≤ mx) ∧
      (∀ w : Vertex, Mesh.get_bounding_box (vs ++ [w]) fs = .ok bb)) ∧
    Mesh.get_bounding_box cubeVertices cubeFaces = .ok [[0,1], [0,1], [0,1]] := by
  constructor
  · rcases vs with _ | ⟨v0, vrest⟩
    · exact absurd rfl hne
    have h0 : pyGet (v0 :: vrest) 0 = some v0 := by
      rw [pyGet_of_nonneg_lt (v0 :: vrest) 0 le_rfl
        (by exact_mod_cast Nat.succ_pos vrest.length)]
      rfl
    have hv0 : v0.length = 3 := hdim v0 (List.mem_cons_self _ _)
    have href : ∀ p ∈ refVertices (v0 :: vrest) fs, p.length = 3 :=
      fun p hp => hdim p (refVertices_sub hidx p hp)
    refine ⟨_, get_bounding_box_eval h0 hv0 href hidx hface, by simp, ?_, ?_⟩
    · intro i hi
      refine ⟨listMin (axisCoords (v0 :: vrest) fs i),
        listMax (axisCoords (v0 :: vrest) fs i), ?_, ?_, ?_, ?_⟩
      · interval_cases i <;> rfl
      · exact listMin_mem (axisCoords_ne_nil hface)
      · exact listMax_mem (axisCoords_ne_nil hface)
      · exact fun q hq => ⟨listMin_le q hq, le_listMax q hq⟩
    · intro w
      have h0w : pyGet ((v0 :: vrest) ++ [w]) 0 = some v0 := by
        rw [pyGet_of_nonneg_lt ((v0 :: vrest) ++ [w]) 0 le_rfl
          (by simp only [List.length_append, List.length_cons]; push_cast; omega)]
        rfl
      have hidxw : idxOK ((v0 :: vrest) ++ [w]) fs := by
        intro face hf ivt hv
        obtain ⟨ha, hb⟩ := hidx face hf ivt hv
        refine ⟨ha, ?_⟩
        rw [List.length_append]
        push_cast
        omega
      have hrefw : ∀ p ∈ refVertices ((v0 :: vrest) ++ [w]) fs, p.length = 3 := by
        rw [refVertices_append hidx]
        exact href
      have := get_bounding_box_eval h0w hv0 hrefw hidxw hface
      rw [this]
      congr 1
      apply List.map_congr_left
      intro i _
      unfold axisCoords
      rw [refVertices_append hidx]
  · decide

/-- Witness for C2 at the unit-cube fixture. -/
theorem bounding_box_face_expanded_witness :
    ∃ bb, Mesh.get_bounding_box cubeVertices cubeFaces = .ok bb ∧
      bb.length = 3 ∧
      (∀ w : Vertex, Mesh.get_bounding_box (cubeVertices ++ [w]) cubeFaces = .ok bb) := by
  obtain ⟨⟨bb, hbb, hlen, _, hw⟩, _⟩ :=
    @bounding_box_face_expanded cubeVertices cubeFaces
      (by decide) (by unfold idxOK; decide) (by decide)
      ⟨[1,2,3], by decide, by decide⟩
  exact ⟨bb, hbb, hlen, hw⟩

/-! Claims C3 and C4: the aggregate bounding box of the model. -/

theorem widen_step {b mb : List (List ℚ)} (hb : box3 b) (hmb : box3 mb) :
    Model.widen_axes b mb = .ok (specWiden b mb) := by
  obtain ⟨x1, y1, x2, y2, x3, y3, hx1, hx2, hx3, rfl⟩ := hb
  obtain ⟨c1, d1, c2, d2, c3, d3, hc1, hc2, hc3, rfl⟩ := hmb
  have h1 : Model.widen_axes [[x1,y1],[x2,y2],[x3,y3]] [[c1,d1],[c2,d2],[c3,d3]]
      = .ok [[min x1 (min c1 d1), max y1 (max c1 d1)],
             [min x2 (min c2 d2), max y2 (max c2 d2)],
             [min x3 (min c3 d3), max y3 (max c3 d3)]] := rfl
  rw [h1, min_eq_left hc1, min_eq_left hc2, min_eq_left hc3,
      max_eq_right hc1, max_eq_right hc2, max_eq_right hc3]
  rfl

theorem widen_box3 {b mb : List (List ℚ)} (hb : box3 b) (hmb : box3 mb) :
    box3 (specWiden b mb) := by
  obtain ⟨x1, y1, x2, y2, x3, y3, hx1, hx2, hx3, rfl⟩ := hb
  obtain ⟨c1, d1, c2, d2, c3, d3, hc1, hc2, hc3, rfl⟩ := hmb
  refine ⟨min x1 c1, max y1 d1, min x2 c2, max y2 d2, min x3 c3, max y3 d3,
    ?_, ?_, ?_, rfl⟩
  · exact le_trans (min_le_left x1 c1) (le_trans hx1 (le_max_left y1 d1))
  · exact le_trans (min_le_left x2 c2) (le_trans hx2 (le_max_left y2 d2))
  · exact le_trans (min_le_left x3 c3) (le_trans hx3 (le_max_left y3 d3))

theorem eFold_widen {rest : List Mesh} :
    ∀ {b0 : List (List ℚ)}, box3 b0 → (∀ m ∈ rest, box3 m.bounding_box) →
    eFold (fun b mesh => Model.widen_axes b mesh.bounding_box) b0 rest =
      .ok (rest.foldl (fun b mesh => specWiden b mesh.bounding_box) b0) := by
  induction rest with
  | nil => intro b0 _ _; rfl
  | cons m ms ih =>
    intro b0 hb0 hall
    simp only [eFold, List.foldl_cons]
    rw [widen_step hb0 (hall m (List.mem_cons_self _ _))]
    exact ih (widen_box3 hb0 (hall m (List.mem_cons_self _ _)))
      (fun m2 hm2 => hall m2 (List.mem_cons_of_mem _ hm2))

/-- Claim C3: for a model with at least one mesh (all cached boxes being
well-formed 3-axis boxes), the aggregate bounding-box query succeeds and
returns exactly the spec-side fold: start from the first mesh box and widen
per mesh and per axis; on the two-cube model (unit cube at the origin and
unit cube translated by (5,0,0)) it returns [(0,6), (0,1), (0,1)]. -/
theorem model_bbox_aggregate {m0 : Mesh} {rest : List Mesh}
    (h : ∀ m ∈ m0 :: rest, box3 m.bounding_box) :
    (∃ final, specAggregate (m0 :: rest) = some final ∧
      Model.get_bounding_box (m0 :: rest) =
        .ok (final, { m0 with bounding_box := final } :: rest)) ∧
    Model.get_bounding_box [cubeMesh, cube5Mesh] =
      .ok ([[0,6], [0,1], [0,1]],
        [{ cubeMesh with bounding_box := [[0,6], [0,1], [0,1]] }, cube5Mesh]) := by
  constructor
  · refine ⟨_, rfl, ?_⟩
    unfold Model.get_bounding_box
    dsimp only
    rw [eFold_widen (h m0 (List.mem_cons_self _ _))
      (fun m2 hm2 => h m2 (List.mem_cons_of_mem _ hm2))]
  · decide

/-- Witness for C3 at the two-cube model. -/
theorem model_bbox_aggregate_witness :
    ∃ final, specAggregate [cubeMesh, cube5Mesh] = some final ∧
      Model.get_bounding_box [cubeMesh, cube5Mesh] =
        .ok (final, { cubeMesh with bounding_box := final } :: [cube5Mesh]) := by
  have hcube : box3 (cubeMesh.bounding_box) :=
    ⟨0, 1, 0, 1, 0, 1, by norm_num, by norm_num, by norm_num, rfl⟩
  have hcube5 : box3 (cube5Mesh.bounding_box) :=
    ⟨5, 6, 0, 1, 0, 1, by norm_num, by norm_num, by norm_num, rfl⟩
  refine (@model_bbox_aggregate cubeMesh [cube5Mesh] ?_).1
  intro m hm
  simp only [List.mem_cons, List.not_mem_nil, or_false] at hm
  rcases hm with rfl | rfl
  · exact hcube
  · exact hcube5

/-- Claim C4 is refuted by the code: querying the aggregate bounding box
mutates the cached per-mesh box of the first owned mesh whenever a later
mesh widens it, because the running box aliases data[0].bounding_box.
On the two-cube model the query rewrites the first cube cached box from
[(0,1), (0,1), (0,1)] to [(0,6), (0,1), (0,1)]. -/
theorem model_bbox_mutates_first_mesh :
    Mesh.make cubeVertices cubeFaces = .ok cubeMesh ∧
    Mesh.make cube5Vertices cubeFaces = .ok cube5Mesh ∧
    Model.get_bounding_box [cubeMesh, cube5Mesh] =
      .ok ([[0,6], [0,1], [0,1]],
        [{ cubeMesh with bounding_box := [[0,6], [0,1], [0,1]] }, cube5Mesh]) ∧
    ({ cubeMesh with bounding_box := [[0,6], [0,1], [0,1]] } : Mesh).bounding_box ≠
      cubeMesh.bounding_box := by
  exact ⟨by decide, by decide, by decide, by decide⟩

/-! Claim C5: STL facet blocks. -/

theorem stlLine_facet {st : StlState} {line : String} {r : List String}
    (h : pySplit line = "facet" :: r) :
    stlLine st line = .ok { st with v := [] } := by
  unfold stlLine
  rw [h]
  dsimp only
  rw [if_pos rfl]

theorem stlVertexParse_inv {line : String} {tri : Vertex}
    (h : stlVertexParse line = some tri) :
    ∃ rest, pySplit line = "vertex" :: rest ∧ stlVertexE rest = .ok tri := by
  unfold stlVertexParse at h
  rcases hsp : pySplit line with _ | ⟨t, rest⟩ <;> rw [hsp] at h
  · cases h
  · dsimp only at h
    by_cases ht : t = "vertex"
    · subst ht
      rw [if_pos rfl] at h
      refine ⟨rest, rfl, ?_⟩
      rcases he : stlVertexE rest with e | v <;> rw [he] at h
      · cases h
      · simp only [Except.toOption, Option.some.injEq] at h
        rw [h]
    · rw [if_neg ht] at h
      cases h

theorem stlLine_vertex {st : StlState} {line : String} {tri : Vertex}
    (h : stlVertexParse line = some tri) :
    stlLine st line = .ok { st with v := st.v ++ [tri] } := by
  obtain ⟨rest, hsp, he⟩ := stlVertexParse_inv h
  unfold stlLine
  rw [hsp]
  dsimp only
  rw [if_neg (by decide : ¬ ("vertex" : String) = "facet"), if_pos rfl, he]

theorem eFold_vertex_run {vls : List String} :
    ∀ {parsed : List Vertex} {st : StlState},
      oMap stlVertexParse vls = some parsed →
      eFold stlLine st vls = .ok { st with v := st.v ++ parsed } := by
  induction vls with
  | nil =>
    intro parsed st h
    simp only [oMap, Option.some.injEq] at h
    subst h
    simp [eFold]
  | cons l ls ih =>
    intro parsed st h
    simp only [oMap] at h
    rcases hl : stlVertexParse l with _ | tri <;> rw [hl] at h
    · cases h
    · rcases hls : oMap stlVertexParse ls with _ | ps <;> rw [hls] at h
      · cases h
      · cases h
        simp only [eFold]
        rw [stlLine_vertex hl]
        dsimp only
        rw [ih hls]
        simp

theorem stlLine_endloop {st : StlState} {line : String} {r : List String}
    (h : pySplit line = "endloop" :: r) :
    stlLine st line =
      .ok (if st.v.length = 3 then
        { vertices := st.vertices ++ st.v,
          faces := st.faces ++ [[3 * (st.faces.length : ℤ) + 1,
            3 * (st.faces.length : ℤ) + 2, 3 * (st.faces.length : ℤ) + 3]],
          v := st.v }
      else st) := by
  unfold stlLine
  rw [h]
  dsimp only
  rw [if_neg (by decide : ¬ ("endloop" : String) = "facet"),
      if_neg (by decide : ¬ ("endloop" : String) = "vertex"), if_pos rfl]
  by_cases hv : st.v.length = 3 <;> simp [hv]

theorem stlLine_pres (s : StlState) (line : String) (s2 : StlState)
    (hP : stlInv s) (h : stlLine s line = .ok s2) : stlInv s2 := by
  unfold stlLine at h
  rcases hsp : pySplit line with _ | ⟨t, rest⟩ <;> rw [hsp] at h
  · cases h
  · dsimp only at h
    by_cases hf : t = "facet"
    · rw [if_pos hf] at h
      cases h
      exact hP
    rw [if_neg hf] at h
    by_cases hvx : t = "vertex"
    · rw [if_pos hvx] at h
      rcases he : stlVertexE rest with e | tri <;> rw [he] at h
      · cases h
      · cases h
        exact hP
    rw [if_neg hvx] at h
    by_cases hel : t = "endloop"
    · rw [if_pos hel] at h
      by_cases hv3 : s.v.length = 3
      · rw [if_pos hv3] at h
        cases h
        obtain ⟨hlen, hpat⟩ := hP
        constructor
        · simp only [List.length_append, List.length_cons, List.length_nil]
          omega
        · intro k hk
          simp only [List.length_append, List.length_cons, List.length_nil] at hk
          by_cases hklt : k < s.faces.length
          · rw [List.getD_append _ _ _ _ hklt]
            exact hpat k hklt
          · have hkeq : k = s.faces.length := by omega
            subst hkeq
            rw [List.getD_eq_getElem?_getD, List.getElem?_append_right (le_refl _)]
            simp
      · rw [if_neg hv3] at h
        cases h
        exact hP
    · rw [if_neg hel] at h
      cases h
      exact hP

/-- Claim C5: an STL facet block (facet line, then well-formed vertex
lines, then endloop) flushes exactly one triangular face when exactly 3
vertices were accumulated — appending the 3 fresh vertices and one face
with the contiguous 1-based indices 3k+1, 3k+2, 3k+3 for k the prior face
count — and contributes no face and no vertex otherwise; consequently
every successful parse yields faces that are exactly the contiguous
1-based triples and three stored vertices per face. -/
theorem stl_block_flush :
    (∀ (st : StlState) (facetLine endLine : String) (vls : List String)
        (parsed : List Vertex) (r1 r2 : List String),
      pySplit facetLine = "facet" :: r1 →
      oMap stlVertexParse vls = some parsed →
      pySplit endLine = "endloop" :: r2 →
      eFold stlLine st (facetLine :: vls ++ [endLine]) =
        .ok (if parsed.length = 3 then
          { vertices := st.vertices ++ parsed,
            faces := st.faces ++ [[3 * (st.faces.length : ℤ) + 1,
              3 * (st.faces.length : ℤ) + 2, 3 * (st.faces.length : ℤ) + 3]],
            v := parsed }
        else { st with v := parsed })) ∧
    (∀ (lines : List String) (vs : List Vertex) (fs : List (List ℤ)),
      Model.load_stl_lines lines = .ok (vs, fs) →
      vs.length = 3 * fs.length ∧
      ∀ k, k < fs.length → fs.getD k [] =
        [3 * (k : ℤ) + 1, 3 * (k : ℤ) + 2, 3 * (k : ℤ) + 3]) := by
  constructor
  · intro st fl el vls parsed r1 r2 hf hv he
    have hsplit : fl :: vls ++ [el] = fl :: (vls ++ [el]) := rfl
    rw [hsplit]
    simp only [eFold]
    rw [stlLine_facet hf]
    dsimp only
    rw [eFold_append, eFold_vertex_run hv]
    dsimp only
    simp only [List.nil_append, eFold]
    rw [stlLine_endloop he]
  · intro lines vs fs h
    rcases lines with _ | ⟨l0, rest⟩
    · unfold Model.load_stl_lines at h
      simp only [Except.ok.injEq, Prod.mk.injEq] at h
      obtain ⟨h1, h2⟩ := h
      rw [← h1, ← h2]
      exact ⟨rfl, fun k hk => absurd hk (by simp)⟩
    · unfold Model.load_stl_lines at h
      dsimp only at h
      split at h
      · rcases hef : eFold stlLine { vertices := [], faces := [], v := [] }
            (l0 :: rest) with e | st <;> rw [hef] at h
        · cases h
        · simp only [Except.ok.injEq, Prod.mk.injEq] at h
          obtain ⟨h1, h2⟩ := h
          have hinv : stlInv st :=
            eFold_pres stlInv stlLine_pres
              (show stlInv { vertices := [], faces := [], v := [] } from
                ⟨rfl, fun k hk => absurd hk (by simp)⟩) hef
          rw [← h1, ← h2]
          exact hinv
      · cases h

/-- Witness for C5 at one well-formed facet block and one full parse. -/
theorem stl_block_flush_witness :
    eFold stlLine { vertices := [], faces := [], v := [] }
      ("facet normal 0 0 1" :: ["vertex 0 0 0", "vertex 1 0 0", "vertex 0 1 0"]
        ++ ["endloop"]) =
      .ok { vertices := [[0,0,0], [1,0,0], [0,1,0]], faces := [[1,2,3]],
            v := [[0,0,0], [1,0,0], [0,1,0]] } ∧
    ([[0,0,0], [1,0,0], [0,1,0]] : List Vertex).length =
      3 * ([[1,2,3]] : List (List ℤ)).length := by
  constructor
  · have h := stl_block_flush.1 { vertices := [], faces := [], v := [] }
      "facet normal 0 0 1" "endloop"
      ["vertex 0 0 0", "vertex 1 0 0", "vertex 0 1 0"]
      [[0,0,0], [1,0,0], [0,1,0]] ["normal", "0", "0", "1"] []
      (by with_unfolding_all rfl) (by with_unfolding_all rfl)
      (by with_unfolding_all rfl)
    exact h.trans (by with_unfolding_all rfl)
  · exact (stl_block_flush.2
      ["solid", "facet", "vertex 0 0 0", "vertex 1 0 0", "vertex 0 1 0", "endloop"]
      [[0,0,0], [1,0,0], [0,1,0]] [[1,2,3]] (by with_unfolding_all rfl)).1

/-! Claim C6: the ASCII STL header check. -/

theorem liftO_error {α : Type} {e0 e : PyErr} {x : Option α}
    (h : liftO e0 x = .error e) : e = e0 := by
  rcases x with _ | a
  · injection h with h2
    exact h2.symm
  · simp [liftO] at h

theorem stlVertexE_ne_malformed (rest : List String) :
    stlVertexE rest ≠ .error .malformedHeader := by
  unfold stlVertexE
  rcases rest[0]? with _ | a <;> dsimp only [liftO]
  · simp
  · rcases pyFloat a with _ | x <;> dsimp only [liftO]
    · simp
    · rcases rest[1]? with _ | b <;> dsimp only [liftO]
      · simp
      · rcases pyFloat b with _ | y <;> dsimp only [liftO]
        · simp
        · rcases rest[2]? with _ | c <;> dsimp only [liftO]
          · simp
          · rcases pyFloat c with _ | z <;> dsimp only [liftO]
            · simp
            · simp

theorem stlLine_ne_malformed (s : StlState) (line : String) :
    stlLine s line ≠ .error .malformedHeader := by
  intro h
  unfold stlLine at h
  rcases hsp : pySplit line with _ | ⟨t, rest⟩ <;> rw [hsp] at h <;>
    dsimp only at h
  · simp at h
  · split at h
    · cases h
    split at h
    · rcases he : stlVertexE rest with e | tri <;> rw [he] at h <;>
        dsimp only at h
      · injection h with h2
        exact stlVertexE_ne_malformed rest (h2 ▸ he)
      · cases h
    split at h
    · split at h <;> cases h
    · cases h

/-- Claim C6 amended: ASCII STL parsing fails with the header error exactly
when the input has a first line and that whole line, stripped of
surrounding whitespace, is not the literal string solid; in particular a
first line of the form solid followed by a name is rejected even though
its first token is solid. -/
theorem stl_header_line_check (lines : List String) :
    Model.load_stl_lines lines = .error .malformedHeader ↔
      ∃ l0 rest, lines = l0 :: rest ∧ pyStrip l0 ≠ "solid" := by
  constructor
  · intro h
    rcases lines with _ | ⟨l0, rest⟩
    · unfold Model.load_stl_lines at h
      cases h
    · refine ⟨l0, rest, rfl, ?_⟩
      intro hsolid
      unfold Model.load_stl_lines at h
      dsimp only at h
      rw [if_pos hsolid] at h
      rcases hef : eFold stlLine { vertices := [], faces := [], v := [] }
          (l0 :: rest) with e | st <;> rw [hef] at h <;> dsimp only at h
      · injection h with h2
        exact eFold_ne_error (fun s a => stlLine_ne_malformed s a) (h2 ▸ hef)
      · cases h
  · rintro ⟨l0, rest, rfl, hne⟩
    unfold Model.load_stl_lines
    dsimp only
    rw [if_neg hne]

/-- Witness for the amended C6: a named header line is rejected, a bare
solid header is not. -/
theorem stl_header_line_check_witness :
    Model.load_stl_lines ["solid cube"] = .error .malformedHeader ∧
    ¬ Model.load_stl_lines ["solid", "endsolid"] = .error .malformedHeader := by
  constructor
  · exact (stl_header_line_check ["solid cube"]).mpr
      ⟨"solid cube", [], rfl, by decide⟩
  · intro h
    obtain ⟨l0, rest, heq, hne⟩ := (stl_header_line_check _).mp h
    cases heq
    exact hne (by decide)

/-- Claim C6 counterexample: the first token of the line solid cube is
the literal solid, yet the parser raises the header error, refuting the
claimed equivalence with the first-token condition. -/
theorem stl_header_token_counterexample :
    (pySplit "solid cube").head? = some "solid" ∧
    Model.load_stl_lines ["solid cube", "facet normal 0 0 1", "outer loop",
      "vertex 0 0 0", "vertex 1 0 0", "vertex 0 1 0", "endloop", "endfacet",
      "endsolid"] = .error .malformedHeader := by
  exact ⟨by with_unfolding_all rfl, by with_unfolding_all rfl⟩

/-! Claims C7 and C8: OBJ face token handling. -/

/-- Claim C7: OBJ lines whose leading token is neither v nor f (and blank
lines) are ignored without error, and the three face-token forms index,
index/texture/normal and index//normal all produce the identical face
(1,2,3) because only the first slash-separated sub-index is kept. -/
theorem obj_face_subindices :
    (∀ (st : List Vertex × List (List ℤ)) (line : String),
      pySplit line = [] → objLine st line = .ok st) ∧
    (∀ (st : List Vertex × List (List ℤ)) (line t : String)
        (rest : List String), pySplit line = t :: rest →
      t ≠ "v" → t ≠ "f" → objLine st line = .ok st) ∧
    (∀ st : List Vertex × List (List ℤ),
      objLine st "f 1 2 3" = .ok (st.1, st.2 ++ [[1, 2, 3]]) ∧
      objLine st "f 1/10/5 2/11/6 3/12/7" = .ok (st.1, st.2 ++ [[1, 2, 3]]) ∧
      objLine st "f 1//5 2//6 3//7" = .ok (st.1, st.2 ++ [[1, 2, 3]])) := by
  refine ⟨?_, ?_, ?_⟩
  · intro st line h
    unfold objLine
    rw [h]
  · intro st line t rest h ht hf
    unfold objLine
    rw [h]
    dsimp only
    rw [if_neg ht, if_neg hf]
  · intro st
    exact ⟨rfl, rfl, rfl⟩

/-- Witness for C7: an ignored normal line, a blank line, and the
sub-index face form at a concrete state. -/
theorem obj_face_subindices_witness :
    objLine ([], []) "vn 0 0 1" = .ok ([], []) ∧
    objLine ([], []) "" = .ok ([], []) ∧
    objLine ([], []) "f 1/10/5 2/11/6 3/12/7" =
      .ok (([] : List Vertex), [[1, 2, 3]]) := by
  refine ⟨?_, ?_, ?_⟩
  · exact obj_face_subindices.2.1 ([], []) "vn 0 0 1" "vn" ["0", "0", "1"]
      rfl (by decide) (by decide)
  · exact obj_face_subindices.1 ([], []) "" rfl
  · exact (obj_face_subindices.2.2 ([], [])).2.1

/-- Claim C8 counterexample: the OBJ face line f 1 2 is not rejected with
any error: the parse succeeds with the two-index face and the subsequent
Mesh construction succeeds as well. -/
theorem obj_short_face_counterexample :
    Model.load_obj_lines ["v 0 0 0", "v 1 1 1", "f 1 2"] =
      .ok ([[0,0,0], [1,1,1]], [[1, 2]]) ∧
    Model.load_obj ["v 0 0 0", "v 1 1 1", "f 1 2"] =
      .ok { vertices := [[0,0,0], [1,1,1]], faces := [[1, 2]],
            bounding_box := [[0,1], [0,1], [0,1]] } := by
  exact ⟨by with_unfolding_all rfl, by with_unfolding_all rfl⟩

/-- Claim C8 amended: an OBJ face line is never arity-checked: it appends
exactly one face whose arity equals the number of face tokens, for any
token count, so f 1 2 yields the face (1,2) with no error. -/
theorem obj_face_arity_unchecked :
    (∀ (st : List Vertex × List (List ℤ)) (line : String)
        (ts : List String) (face : List ℤ),
      pySplit line = "f" :: ts → eMap objFaceIndex ts = .ok face →
      objLine st line = .ok (st.1, st.2 ++ [face]) ∧ face.length = ts.length) ∧
    Model.load_obj_lines ["f 1 2"] = .ok ([], [[1, 2]]) := by
  constructor
  · intro st line ts face h hts
    constructor
    · unfold objLine
      rw [h]
      dsimp only
      rw [if_neg (by decide : ¬ ("f" : String) = "v"), if_pos rfl, hts]
    · exact eMap_length hts
  · with_unfolding_all rfl

/-- Witness for the amended C8 at the face line f 1 2. -/
theorem obj_face_arity_unchecked_witness :
    objLine ([], []) "f 1 2" = .ok (([] : List Vertex), [[1, 2]]) ∧
    ([1, 2] : List ℤ).length = (["1", "2"] : List String).length := by
  have h := obj_face_arity_unchecked.1 ([], []) "f 1 2" ["1", "2"] [1, 2]
    (by with_unfolding_all rfl) (by with_unfolding_all rfl)
  exact ⟨h.1, h.2⟩

/-! Claim C9: face index validation. -/

/-- Claim C9 counterexample: an OBJ face referencing vertex index 0 is
outside the claimed valid range [1, 2], yet the whole load pipeline
accepts it with no error of any kind: index 0 wraps Python-style to the
last vertex, which then shows up in the cached bounding box. -/
theorem obj_zero_index_accepted_counterexample :
    Model.load_obj ["v 0 0 0", "v 5 5 5", "f 1 2 0"] =
      .ok { vertices := [[0,0,0], [5,5,5]], faces := [[1, 2, 0]],
            bounding_box := [[0,5], [0,5], [0,5]] } ∧
    ¬ (1 ≤ (0 : ℤ)) := by
  exact ⟨by with_unfolding_all rfl, by decide⟩

/-- Claim C9 amended: face indices are never validated at parse time; an
index of 0 (or negative) wraps Python-style to count from the end of the
vertex list and is silently accepted, while an index past the vertex
count raises the untyped IndexError during Mesh construction, not a typed
parse error. -/
theorem obj_index_unvalidated :
    Model.load_obj_lines ["v 0 0 0", "v 5 5 5", "f 1 2 0"] =
      .ok ([[0,0,0], [5,5,5]], [[1, 2, 0]]) ∧
    pyGet ([[0,0,0], [5,5,5]] : List Vertex) ((0 : ℤ) - 1) = some [5,5,5] ∧
    Model.load_obj ["v 0 0 0", "v 5 5 5", "f 1 2 0"] =
      .ok { vertices := [[0,0,0], [5,5,5]], faces := [[1, 2, 0]],
            bounding_box := [[0,5], [0,5], [0,5]] } ∧
    Model.load_obj ["v 0 0 0", "v 5 5 5", "f 1 2 3"] = .error .indexError := by
  exact ⟨by with_unfolding_all rfl, by with_unfolding_all rfl,
    by with_unfolding_all rfl, by with_unfolding_all rfl⟩

/-! Claim C10: the extension dispatch of Model.load_file. -/

/-- Claim C10: for a file name whose lower-cased form ends neither in
.stl or .stla nor in .obj, the load entry point reaches the append with
the mesh variable unassigned and raises the untyped UnboundLocalError,
which is none of the parse errors of the taxonomy. -/
theorem load_file_unknown_extension (file_name : String)
    (contents : List String) (data : List Mesh)
    (h1 : pyEndsWith (pyLower file_name) ".stl" = false)
    (h2 : pyEndsWith (pyLower file_name) ".stla" = false)
    (h3 : pyEndsWith (pyLower file_name) ".obj" = false) :
    Model.load_file file_name contents data = .error .unboundLocalError ∧
    PyErr.unboundLocalError ≠ PyErr.malformedHeader ∧
    PyErr.unboundLocalError ≠ PyErr.invalidNumber ∧
    PyErr.unboundLocalError ≠ PyErr.indexError := by
  refine ⟨?_, by decide, by decide, by decide⟩
  unfold Model.load_file
  simp [h1, h2, h3]

/-- Witness for C10 at a .ply file name. -/
theorem load_file_unknown_extension_witness :
    Model.load_file "model.ply" ["solid"] [] = .error .unboundLocalError := by
  exact (load_file_unknown_extension "model.ply" ["solid"] []
    (by decide) (by decide) (by decide)).1

end MeshViewer
